import Mathlib

/-!
Verification development for the DeLogger backend (`main.go`).

The Go program exposes a single HTTP handler (`parseHandler`) that

* rejects non-POST requests with 405,
* reads the request body (500 on read failure),
* splits the body on the newline character, trims each line with
  `strings.TrimSpace`, skips lines that are empty after trimming,
* classifies each remaining line against the regular expression
  `^\[(.*?)\]\s+\[(.*?)\]\s+(.*)$` (Go `regexp`, RE2 with leftmost-first
  submatch semantics): a match produces a structured `LogEntry`
  (timestamp/level/message), a non-match produces a raw `LogEntry`,
* serializes the entry slice with `encoding/json` (struct tags carry
  `omitempty`; a nil slice marshals to `null`),
* answers 200 with headers `Content-Type: application/json` and
  `Access-Control-Allow-Origin: *`,
* and, via a deferred call, hands the audit record (`LogRecord`) to
  `recordLog` exactly once on every exit path; a failed database insert
  is only logged, never surfaced.

Strings are modelled as `List Char` (Go strings are byte slices; all the
logic in this program is per-rune, so the rune-level model is faithful).
-/

set_option autoImplicit false

namespace DeLogger

/-- The character class matched by `\s` in Go's RE2: `[\t\n\f\r ]`.
(Note: vertical tab and Unicode spaces are NOT in this class.) -/
def isGoSpace (c : Char) : Bool :=
  c = '\t' || c = '\n' || c = Char.ofNat 12 || c = '\r' || c = ' '

/-- The predicate `unicode.IsSpace` used by Go's `strings.TrimSpace`:
Latin-1 white space (TAB, LF, VT, FF, CR, SP, NEL, NBSP) plus the
Unicode `Zs` category and the line/paragraph separators. -/
def isUniSpace (c : Char) : Bool :=
  c = '\t' || c = '\n' || c = Char.ofNat 11 || c = Char.ofNat 12 ||
  c = '\r' || c = ' ' || c = Char.ofNat 0x85 || c = Char.ofNat 0xA0 ||
  c = Char.ofNat 0x1680 ||
  (0x2000 ≤ c.toNat && c.toNat ≤ 0x200A) ||
  c = Char.ofNat 0x2028 || c = Char.ofNat 0x2029 ||
  c = Char.ofNat 0x202F || c = Char.ofNat 0x205F || c = Char.ofNat 0x3000

/-- Go `strings.TrimSpace`: drop leading and trailing white space. -/
def trimSpace (s : List Char) : List Char :=
  ((s.dropWhile isUniSpace).reverse.dropWhile isUniSpace).reverse

/-- Go `strings.Split(s, "\n")`: the pieces of `s` between newline
characters; one more piece than there are newlines, so the result is
never empty and the empty string splits to `[[]]`. -/
def splitLines : List Char → List (List Char)
  | [] => [[]]
  | c :: r =>
    if c = '\n' then [] :: splitLines r
    else
      match splitLines r with
      | [] => [[c]]
      | h :: t => (c :: h) :: t

/-- After the closing bracket of the second group the pattern requires
`\s+(.*)$`: at least one `\s` character, then a greedy capture that may
not contain a newline, anchored at the end of the text.  With greedy
`\s+` the third capture is exactly what follows the maximal white-space
run, and the match succeeds iff that run is non-empty and the remainder
is newline-free.  Returns the third capture. -/
def afterSecond : List Char → Option (List Char)
  | [] => none
  | c :: r =>
    if isGoSpace c then
      let t := r.dropWhile isGoSpace
      if t.all (fun x => x ≠ '\n') then some t else none
    else none

/-- Scan for the non-greedy end of the second bracket group `(.*?)\]`
followed by `\s+(.*)$`.  `acc` holds the (reversed) characters consumed
into the second capture so far; the shortest extension that lets the
rest of the pattern match wins, exactly as RE2 leftmost-first semantics
prescribe.  `.` does not match a newline. -/
def findB (acc : List Char) : List Char → Option (List Char × List Char)
  | [] => none
  | c :: r =>
    if c = ']' then
      match afterSecond r with
      | some t => some (acc.reverse, t)
      | none => findB (c :: acc) r
    else if c = '\n' then none
    else findB (c :: acc) r

/-- After the closing bracket of the first group the pattern requires
`\s+\[`: a maximal non-empty `\s` run (it must be followed by `[`, which
is not in `\s`), then the second group. -/
def afterFirst : List Char → Option (List Char × List Char)
  | [] => none
  | c :: r =>
    if isGoSpace c then
      match r.dropWhile isGoSpace with
      | [] => none
      | c2 :: r2 => if c2 = '[' then findB [] r2 else none
    else none

/-- Scan for the non-greedy end of the first bracket group `(.*?)\]`
followed by the rest of the pattern, shortest match first. -/
def findA (acc : List Char) :
    List Char → Option (List Char × List Char × List Char)
  | [] => none
  | c :: r =>
    if c = ']' then
      match afterFirst r with
      | some (b, m) => some (acc.reverse, b, m)
      | none => findA (c :: acc) r
    else if c = '\n' then none
    else findA (c :: acc) r

/-- The submatch result of Go's
`regexp.MustCompile(`^\[(.*?)\]\s+\[(.*?)\]\s+(.*)$`).FindStringSubmatch`:
`some (A, B, C)` with the three captures when the line matches, `none`
otherwise (in Go: `len(match) == 4` vs `match == nil`). -/
def logRegexMatch (line : List Char) : Option (List Char × List Char × List Char) :=
  match line with
  | [] => none
  | c :: r => if c = '[' then findA [] r else none

/-- `LogEntry` from `main.go`: the classification result for one line.
All four fields default to the empty string (Go zero value). -/
structure LogEntry where
  timestamp : List Char := []
  level : List Char := []
  message : List Char := []
  raw : List Char := []
  deriving DecidableEq, Repr

/-- The per-line classification step of the loop in `parseHandler`:
a regex match yields a structured entry, otherwise the whole (trimmed)
line is stored in `raw`. -/
def classifyLine (line : List Char) : LogEntry :=
  match logRegexMatch line with
  | some (a, b, m) => { timestamp := a, level := b, message := m }
  | none => { raw := line }

/-- One iteration of the loop body: trim the line; a line empty after
trimming contributes nothing (`continue`), any other line contributes
exactly one classified entry. -/
def processLine (line : List Char) : Option LogEntry :=
  let t := trimSpace line
  if t = [] then none else some (classifyLine t)

/-- The whole classification pipeline of `parseHandler`: split on
newlines, trim, skip blanks, classify in order. -/
def parseLines (text : List Char) : List LogEntry :=
  (splitLines text).filterMap processLine

/-- Lowercase hexadecimal digit, as used by `encoding/json`. -/
def hexDigit (n : Nat) : Char :=
  if n < 10 then Char.ofNat (48 + n) else Char.ofNat (87 + n)

/-- The escaping `encoding/json` applies inside a JSON string (with the
default HTML escaping): quote, backslash, `\n`, `\r`, `\t`, other
control characters as `\u00xx`, the HTML characters as `<`,
`>`, `&`, and the separators U+2028/U+2029 escaped. -/
def escapeChar (c : Char) : List Char :=
  if c = '"' then ['\\', '"']
  else if c = '\\' then ['\\', '\\']
  else if c = '\n' then ['\\', 'n']
  else if c = '\r' then ['\\', 'r']
  else if c = '\t' then ['\\', 't']
  else if c.toNat < 0x20 then
    ['\\', 'u', '0', '0', hexDigit (c.toNat / 16), hexDigit (c.toNat % 16)]
  else if c = '<' then ['\\', 'u', '0', '0', '3', 'c']
  else if c = '>' then ['\\', 'u', '0', '0', '3', 'e']
  else if c = '&' then ['\\', 'u', '0', '0', '2', '6']
  else if c = Char.ofNat 0x2028 then ['\\', 'u', '2', '0', '2', '8']
  else if c = Char.ofNat 0x2029 then ['\\', 'u', '2', '0', '2', '9']
  else [c]

/-- A JSON string literal for `s`. -/
def marshalString (s : List Char) : List Char :=
  '"' :: s.flatMap escapeChar ++ ['"']

/-- The key/value pairs `encoding/json` serializes for a `LogEntry`:
struct-field order, and every field tagged `omitempty`, so a field equal
to the empty string contributes no pair at all. -/
def entryFields (e : LogEntry) : List (List Char × List Char) :=
  (if e.timestamp = [] then [] else [("timestamp".data, e.timestamp)]) ++
  (if e.level = [] then [] else [("level".data, e.level)]) ++
  (if e.message = [] then [] else [("message".data, e.message)]) ++
  (if e.raw = [] then [] else [("raw".data, e.raw)])

/-- Comma-join pieces of JSON text. -/
def commaJoin : List (List Char) → List Char
  | [] => []
  | [p] => p
  | p :: ps => p ++ ',' :: commaJoin ps

/-- The JSON object `encoding/json` produces for one `LogEntry`. -/
def marshalEntry (e : LogEntry) : List Char :=
  '{' :: commaJoin ((entryFields e).map fun kv =>
    marshalString kv.1 ++ ':' :: marshalString kv.2) ++ ['}']

/-- `json.Marshal` on the `[]LogEntry` slice built by the handler: the
slice is declared `var parsedData []LogEntry` and only ever grown by
`append`, so it is nil exactly when no entry was produced, and a nil
slice marshals to the JSON text `null`, not to `[]`. -/
def marshalEntries (l : List LogEntry) : List Char :=
  match l with
  | [] => "null".data
  | _ => '[' :: commaJoin (l.map marshalEntry) ++ [']']

/-- An inbound HTTP request, as far as `parseHandler` observes it: the
method, the remote address, and the outcome of `io.ReadAll(r.Body)`
(either the body bytes or a read error). -/
structure Request where
  method : List Char
  remoteAddr : List Char
  body : Except (List Char) (List Char)

/-- The HTTP response the handler produces: status code, the headers it
sets explicitly, and the bytes written to the body. -/
structure HttpResponse where
  status : Nat
  headers : List (List Char × List Char)
  body : List Char
  deriving DecidableEq, Repr

/-- `LogRecord` from `main.go`: the audit record persisted per request.
`timestamp` abstracts the `time.Now()` instant. -/
structure LogRecord where
  timestamp : Nat
  remoteAddr : List Char
  requestBody : List Char
  responseBody : List Char
  statusCode : Nat
  errorMsg : List Char
  deriving DecidableEq, Repr

/-- `http.Error(w, msg, code)`: plain-text headers and the message plus
a trailing newline as body. -/
def httpError (msg : List Char) (code : Nat) : HttpResponse :=
  { status := code
    headers := [("Content-Type".data, "text/plain; charset=utf-8".data),
                ("X-Content-Type-Options".data, "nosniff".data)]
    body := msg ++ ['\n'] }

/-- The body of `parseHandler` up to (but not including) the deferred
`recordLog` call: every exit path yields the response written so far and
the audit record in the state it reached on that path.  The record
starts with status 200, empty strings and a nil response body; each
error path overwrites status and message and returns early; the success
path records the request body and the marshalled response.
(`json.Marshal` cannot fail on `[]LogEntry`, so the serialization-error
branch of the source is unreachable and the marshal step is total
here.) -/
def parseHandlerCore (now : Nat) (r : Request) : HttpResponse × LogRecord :=
  let record : LogRecord :=
    { timestamp := now, remoteAddr := r.remoteAddr, requestBody := []
      responseBody := [], statusCode := 200, errorMsg := [] }
  if r.method ≠ "POST".data then
    (httpError "Method not allowed".data 405,
     { record with statusCode := 405, errorMsg := "Method not allowed".data })
  else
    match r.body with
    | .error _ =>
        (httpError "Could not read request body".data 500,
         { record with statusCode := 500,
                       errorMsg := "Could not read request body".data })
    | .ok body =>
        let responseBody := marshalEntries (parseLines body)
        ({ status := 200
           headers := [("Content-Type".data, "application/json".data),
                       ("Access-Control-Allow-Origin".data, "*".data)]
           body := responseBody },
         { record with requestBody := body, responseBody := responseBody })

/-- `recordLog`: one insert attempt into PostgreSQL.  The returned list
is the sequence of records handed to the database; `dbOk` says whether
the insert succeeds, and on failure the error is logged and dropped, so
the attempt is made either way and nothing is reported back to the
caller. -/
def recordLog (dbOk : Bool) (record : LogRecord) : List LogRecord :=
  match dbOk with
  | true => [record]
  | false => [record]

/-- `parseHandler` including its deferred persistence: the deferred
closure runs `recordLog record` on every exit path, after the response
of that path is already determined.  Result: the HTTP response and the
sequence of persistence attempts made for this request. -/
def parseHandler (dbOk : Bool) (now : Nat) (r : Request) :
    HttpResponse × List LogRecord :=
  let (resp, record) := parseHandlerCore now r
  (resp, recordLog dbOk record)

/-! ## Helper lemmas -/

theorem dropWhile_eq_self_of_take1 {p : Char → Bool} {l : List Char}
    (h : ∀ c ∈ l.take 1, p c = false) : l.dropWhile p = l := by
  cases l with
  | nil => rfl
  | cons c r =>
      have hc : p c = false := h c (by simp)
      simp [List.dropWhile_cons, hc]

theorem dropWhile_append_all {p : Char → Bool} {w t : List Char}
    (hw : ∀ c ∈ w, p c = true) :
    (w ++ t).dropWhile p = t.dropWhile p := by
  induction w with
  | nil => rfl
  | cons c r ih =>
      have hc : p c = true := hw c (by simp)
      simp only [List.cons_append, List.dropWhile_cons, hc, if_pos]
      exact ih fun x hx => hw x (by simp [hx])

theorem dropWhile_append_all_stop {p : Char → Bool} {w t : List Char}
    (hw : ∀ c ∈ w, p c = true) (ht : ∀ c ∈ t.take 1, p c = false) :
    (w ++ t).dropWhile p = t := by
  rw [dropWhile_append_all hw, dropWhile_eq_self_of_take1 ht]

theorem afterSecond_spec {w m : List Char} (hw : w ≠ [])
    (hws : ∀ c ∈ w, isGoSpace c = true)
    (hm : ∀ c ∈ m, c ≠ '\n')
    (hm1 : ∀ c ∈ m.take 1, isGoSpace c = false) :
    afterSecond (w ++ m) = some m := by
  cases w with
  | nil => exact absurd rfl hw
  | cons s w2 =>
      have hs : isGoSpace s = true := hws s (by simp)
      have hdrop : (w2 ++ m).dropWhile isGoSpace = m :=
        dropWhile_append_all_stop (fun c hc => hws c (by simp [hc])) hm1
      have hnotin : '\n' ∉ m := fun hx => (hm '\n' hx) rfl
      simp [afterSecond, hs, hdrop, hnotin]

theorem findB_cons_skip {x : Char} {acc r : List Char}
    (h1 : x ≠ ']') (h2 : x ≠ '\n') :
    findB acc (x :: r) = findB (x :: acc) r := by
  simp [findB, h1, h2]

theorem findB_spec {b w m : List Char} (acc : List Char)
    (hb : ∀ x ∈ b, x ≠ ']' ∧ x ≠ '\n')
    (hw : w ≠ []) (hws : ∀ c ∈ w, isGoSpace c = true)
    (hm : ∀ c ∈ m, c ≠ '\n')
    (hm1 : ∀ c ∈ m.take 1, isGoSpace c = false) :
    findB acc (b ++ ']' :: (w ++ m)) = some (acc.reverse ++ b, m) := by
  induction b generalizing acc with
  | nil =>
      simp [findB, afterSecond_spec hw hws hm hm1]
  | cons x b2 ih =>
      have hx : x ≠ ']' ∧ x ≠ '\n' := hb x (by simp)
      have hstep := ih (x :: acc) (fun y hy => hb y (by simp [hy]))
      rw [List.cons_append, findB_cons_skip hx.1 hx.2, hstep]
      simp [List.reverse_cons, List.append_assoc]

theorem afterFirst_spec {w rest : List Char} (hw : w ≠ [])
    (hws : ∀ c ∈ w, isGoSpace c = true) :
    afterFirst (w ++ '[' :: rest) = findB [] rest := by
  cases w with
  | nil => exact absurd rfl hw
  | cons s w2 =>
      have hs : isGoSpace s = true := hws s (by simp)
      have hdrop : (w2 ++ '[' :: rest).dropWhile isGoSpace = '[' :: rest := by
        refine dropWhile_append_all_stop (fun c hc => hws c (by simp [hc])) ?_
        intro c hc
        simp at hc
        subst hc
        decide
      simp [afterFirst, hs, hdrop]

theorem findA_cons_skip {x : Char} {acc r : List Char}
    (h1 : x ≠ ']') (h2 : x ≠ '\n') :
    findA acc (x :: r) = findA (x :: acc) r := by
  simp [findA, h1, h2]

theorem findA_spec {a rest : List Char} {b m : List Char} (acc : List Char)
    (ha : ∀ x ∈ a, x ≠ ']' ∧ x ≠ '\n')
    (hrest : afterFirst rest = some (b, m)) :
    findA acc (a ++ ']' :: rest) = some (acc.reverse ++ a, b, m) := by
  induction a generalizing acc with
  | nil => simp [findA, hrest]
  | cons x a2 ih =>
      have hx : x ≠ ']' ∧ x ≠ '\n' := ha x (by simp)
      have hstep := ih (x :: acc) (fun y hy => ha y (by simp [hy]))
      rw [List.cons_append, findA_cons_skip hx.1 hx.2, hstep]
      simp [List.reverse_cons, List.append_assoc]

/-- A line of the shape `[A]<ws>[B]<ws>C` matches, with captures A, B, C,
provided A and B contain no `]` (and no newline), the separators are
non-empty runs of `\s` characters, and C neither starts with a `\s`
character (greediness of the second run) nor contains a newline. -/
theorem logRegexMatch_structured {a b w1 w2 m : List Char}
    (ha : ∀ x ∈ a, x ≠ ']' ∧ x ≠ '\n')
    (hb : ∀ x ∈ b, x ≠ ']' ∧ x ≠ '\n')
    (hw1 : w1 ≠ []) (hw1s : ∀ c ∈ w1, isGoSpace c = true)
    (hw2 : w2 ≠ []) (hw2s : ∀ c ∈ w2, isGoSpace c = true)
    (hm : ∀ c ∈ m, c ≠ '\n')
    (hm1 : ∀ c ∈ m.take 1, isGoSpace c = false) :
    logRegexMatch ('[' :: (a ++ ']' :: (w1 ++ '[' :: (b ++ ']' :: (w2 ++ m)))))
      = some (a, b, m) := by
  have hB : findB [] (b ++ ']' :: (w2 ++ m)) = some (b, m) := by
    simpa using findB_spec [] hb hw2 hw2s hm hm1
  have hF : afterFirst (w1 ++ '[' :: (b ++ ']' :: (w2 ++ m))) = some (b, m) := by
    rw [afterFirst_spec hw1 hw1s, hB]
  have hA := findA_spec (a := a) [] ha hF
  simpa [logRegexMatch] using hA

/-- One loop iteration agrees with trim-filter-classify. -/
theorem filterMap_processLine (ls : List (List Char)) :
    ls.filterMap processLine =
      ((ls.map trimSpace).filter (fun t => !t.isEmpty)).map classifyLine := by
  induction ls with
  | nil => rfl
  | cons l ls ih =>
      by_cases h : trimSpace l = []
      · simp [processLine, h, ih]
      · simp [processLine, h, ih]

/-! ## The claims -/

/-- Claim C1: every request, on every exit path, leads to exactly one
`recordLog` persistence attempt, carrying the audit record in the state
that path reached, and whether the database insert succeeds or fails
does not change the HTTP response computed for the request. -/
theorem C1_persist_exactly_once (dbOk : Bool) (now : Nat) (r : Request) :
    (parseHandler dbOk now r).2 = [(parseHandlerCore now r).2] ∧
    (parseHandler dbOk now r).1 = (parseHandlerCore now r).1 ∧
    (parseHandler true now r).1 = (parseHandler false now r).1 := by
  cases dbOk <;> simp [parseHandler, recordLog]

/-- Claim C2, counterexample: on a POST with empty body the handler
answers 200, but the response body is the JSON text `null` (Go marshals
the nil slice to `null`), not `[]` as the claim states. -/
theorem C2_empty_body_counterexample :
    (parseHandler true 0
        { method := "POST".data, remoteAddr := "127.0.0.1:9".data,
          body := Except.ok [] }).1.status = 200 ∧
    (parseHandler true 0
        { method := "POST".data, remoteAddr := "127.0.0.1:9".data,
          body := Except.ok [] }).1.body = "null".data ∧
    (parseHandler true 0
        { method := "POST".data, remoteAddr := "127.0.0.1:9".data,
          body := Except.ok [] }).1.body ≠ "[]".data := by
  refine ⟨rfl, rfl, ?_⟩
  decide

/-- Claim C2 as amended: a POST with empty body yields HTTP 200 with
the JSON text `null` as body (not `[]`), and the finalized audit record
has status_code 200, empty error_msg, empty request_body, and the
response bytes recorded verbatim. -/
theorem C2_empty_body_amended (dbOk : Bool) (now : Nat) (addr : List Char) :
    parseHandler dbOk now
        { method := "POST".data, remoteAddr := addr, body := Except.ok [] } =
      ({ status := 200,
         headers := [("Content-Type".data, "application/json".data),
                     ("Access-Control-Allow-Origin".data, "*".data)],
         body := "null".data },
       [{ timestamp := now, remoteAddr := addr, requestBody := [],
          responseBody := "null".data, statusCode := 200, errorMsg := [] }]) := by
  cases dbOk <;> rfl

/-- Claim C3: a trimmed line of the shape `[A]<ws>[B]<ws>C` — with the
stated side conditions that pin down the non-greedy captures (A and B
free of `]`), the required whitespace separators, and the greedy third
capture (C not starting with whitespace) — classifies as a structured
entry with timestamp = A, level = B, message = C and an empty raw
field; an empty bracketed level (B = "") is accepted. -/
theorem C3_structured_line (a b w1 w2 m : List Char)
    (ha : ∀ x ∈ a, x ≠ ']' ∧ x ≠ '\n')
    (hb : ∀ x ∈ b, x ≠ ']' ∧ x ≠ '\n')
    (hw1 : w1 ≠ []) (hw1s : ∀ c ∈ w1, isGoSpace c = true)
    (hw2 : w2 ≠ []) (hw2s : ∀ c ∈ w2, isGoSpace c = true)
    (hm : ∀ c ∈ m, c ≠ '\n')
    (hm1 : ∀ c ∈ m.take 1, isGoSpace c = false) :
    classifyLine ('[' :: (a ++ ']' :: (w1 ++ '[' :: (b ++ ']' :: (w2 ++ m)))))
      = { timestamp := a, level := b, message := m, raw := [] } := by
  unfold classifyLine
  rw [logRegexMatch_structured ha hb hw1 hw1s hw2 hw2s hm hm1]

/-- Witness for C3 at two concrete lines, the second with an empty
bracketed level. -/
theorem C3_structured_line_witness :
    classifyLine ('[' :: ("2024-01-01T00:00:00Z".data ++ ']' ::
        ([' '] ++ '[' :: ("INFO".data ++ ']' :: ([' '] ++ "server started".data)))))
      = { timestamp := "2024-01-01T00:00:00Z".data, level := "INFO".data,
          message := "server started".data, raw := [] } ∧
    classifyLine ('[' :: ("2024".data ++ ']' ::
        ([' '] ++ '[' :: (([] : List Char) ++ ']' :: ([' '] ++ "up".data)))))
      = { timestamp := "2024".data, level := [],
          message := "up".data, raw := [] } :=
  ⟨C3_structured_line "2024-01-01T00:00:00Z".data "INFO".data [' '] [' ']
      "server started".data (by decide) (by decide) (by decide) (by decide)
      (by decide) (by decide) (by decide) (by decide),
   C3_structured_line "2024".data [] [' '] [' '] "up".data
      (by decide) (by decide) (by decide) (by decide)
      (by decide) (by decide) (by decide) (by decide)⟩

/-- Claim C4: a non-empty trimmed line on which the pattern does not
match classifies as a raw entry whose `raw` field is exactly the
trimmed line, with no structured field set; and classification is
all-or-nothing — no entry ever has both a raw field and a structured
field populated. -/
theorem C4_raw_line (line : List Char) :
    (trimSpace line ≠ [] → logRegexMatch (trimSpace line) = none →
      classifyLine (trimSpace line) =
        { timestamp := [], level := [], message := [], raw := trimSpace line }) ∧
    (∀ t : List Char, (classifyLine t).raw = [] ∨
      ((classifyLine t).timestamp = [] ∧ (classifyLine t).level = [] ∧
        (classifyLine t).message = [])) := by
  constructor
  · intro _ hmatch
    simp [classifyLine, hmatch]
  · intro t
    cases h : logRegexMatch t with
    | none => simp [classifyLine, h]
    | some v => left; simp [classifyLine, h]

/-- Witness for C4 on concrete non-matching lines. -/
theorem C4_raw_line_witness :
    classifyLine (trimSpace "  [only-one-bracket] ".data) =
      { timestamp := [], level := [], message := [],
        raw := trimSpace "  [only-one-bracket] ".data } ∧
    classifyLine (trimSpace "x[a] [b] c".data) =
      { timestamp := [], level := [], message := [],
        raw := trimSpace "x[a] [b] c".data } :=
  ⟨(C4_raw_line "  [only-one-bracket] ".data).1 (by decide) (by decide),
   (C4_raw_line "x[a] [b] c".data).1 (by decide) (by decide)⟩

/-- Claim C5: the pipeline produces, in input order, exactly one entry
per line that is non-empty after trimming, and no entry for lines that
trim to empty: it equals split, trim, drop-blanks, classify, and in
particular its length is the number of non-blank trimmed lines. -/
theorem C5_one_entry_per_nonblank_line (text : List Char) :
    parseLines text =
      (((splitLines text).map trimSpace).filter (fun t => !t.isEmpty)).map
        classifyLine ∧
    (parseLines text).length =
      (((splitLines text).map trimSpace).filter (fun t => !t.isEmpty)).length := by
  have h := filterMap_processLine (splitLines text)
  exact ⟨h, by rw [parseLines, h, List.length_map]⟩

/-- Claim C6: a non-POST request is answered 405 without the body ever
being consulted (the outcome is the same for every possible body,
including a failing one), processing stops there, and the audit record
carries status 405, the non-empty error message, and empty request and
response bodies. -/
theorem C6_method_not_allowed (dbOk : Bool) (now : Nat) (r : Request)
    (hm : r.method ≠ "POST".data) :
    parseHandler dbOk now r =
      ({ status := 405,
         headers := [("Content-Type".data, "text/plain; charset=utf-8".data),
                     ("X-Content-Type-Options".data, "nosniff".data)],
         body := "Method not allowed".data ++ ['\n'] },
       [{ timestamp := now, remoteAddr := r.remoteAddr, requestBody := [],
          responseBody := [], statusCode := 405,
          errorMsg := "Method not allowed".data }]) ∧
    "Method not allowed".data ≠ [] ∧
    (∀ body2, parseHandler dbOk now
        { method := r.method, remoteAddr := r.remoteAddr, body := body2 } =
      parseHandler dbOk now r) := by
  refine ⟨?_, by decide, ?_⟩
  · cases dbOk <;> simp [parseHandler, parseHandlerCore, recordLog, httpError, hm]
  · intro body2
    cases dbOk <;> simp [parseHandler, parseHandlerCore, recordLog, httpError, hm]

/-- Witness for C6 at a concrete GET request. -/
theorem C6_method_not_allowed_witness :
    parseHandler true 7
        { method := "GET".data, remoteAddr := "10.0.0.1:4".data,
          body := Except.ok "ignored".data } =
      ({ status := 405,
         headers := [("Content-Type".data, "text/plain; charset=utf-8".data),
                     ("X-Content-Type-Options".data, "nosniff".data)],
         body := "Method not allowed".data ++ ['\n'] },
       [{ timestamp := 7, remoteAddr := "10.0.0.1:4".data, requestBody := [],
          responseBody := [], statusCode := 405,
          errorMsg := "Method not allowed".data }]) :=
  (C6_method_not_allowed true 7
      { method := "GET".data, remoteAddr := "10.0.0.1:4".data,
        body := Except.ok "ignored".data } (by decide)).1

/-- Claim C8: classification is deterministic and reads no mutable
state: it is a pure function of the input text, and the response body
of the handler depends only on the method and the body of the request —
not on time, remote address, database health, or any other request. -/
theorem C8_deterministic (text : List Char) :
    parseLines text = parseLines text ∧
    (∀ (dbOk1 dbOk2 : Bool) (n1 n2 : Nat) (a1 a2 m : List Char)
        (b : Except (List Char) (List Char)),
      (parseHandler dbOk1 n1 { method := m, remoteAddr := a1, body := b }).1.body =
      (parseHandler dbOk2 n2 { method := m, remoteAddr := a2, body := b }).1.body) := by
  refine ⟨rfl, ?_⟩
  intro dbOk1 dbOk2 n1 n2 a1 a2 m b
  by_cases hm : m = "POST".data
  · cases b with
    | error e => simp [parseHandler, parseHandlerCore, hm]
    | ok body => simp [parseHandler, parseHandlerCore, hm]
  · simp [parseHandler, parseHandlerCore, hm]

/-! ## Splitting and trimming lemmas -/

theorem splitLines_append_newline (x y : List Char) (hx : '\n' ∉ x) :
    splitLines (x ++ '\n' :: y) = x :: splitLines y := by
  induction x with
  | nil => simp [splitLines]
  | cons c x2 ih =>
      have hc : c ≠ '\n' := fun h => hx (by simp [h])
      have ih2 := ih (fun h => hx (by simp [h]))
      have step : splitLines (c :: (x2 ++ '\n' :: y)) =
          match splitLines (x2 ++ '\n' :: y) with
          | [] => [[c]]
          | h :: t => (c :: h) :: t := by
        simp [splitLines, hc]
      rw [List.cons_append, step, ih2]

theorem splitLines_no_newline (x : List Char) (hx : '\n' ∉ x) :
    splitLines x = [x] := by
  induction x with
  | nil => rfl
  | cons c x2 ih =>
      have hc : c ≠ '\n' := fun h => hx (by simp [h])
      have ih2 := ih (fun h => hx (by simp [h]))
      have step : splitLines (c :: x2) =
          match splitLines x2 with
          | [] => [[c]]
          | h :: t => (c :: h) :: t := by
        simp [splitLines, hc]
      rw [step, ih2]

theorem dropWhile_append_left {p : Char → Bool} {x : List Char}
    (y : List Char) (h : x.dropWhile p ≠ []) :
    (x ++ y).dropWhile p = x.dropWhile p ++ y := by
  induction x with
  | nil => exact absurd rfl h
  | cons c x2 ih =>
      by_cases hc : p c
      · have h2 : x2.dropWhile p ≠ [] := by
          simpa [List.dropWhile_cons, hc] using h
        simp [List.dropWhile_cons, hc, ih h2]
      · simp [List.dropWhile_cons, hc]

theorem trimSpace_append_space (x : List Char) (c : Char)
    (hc : isUniSpace c = true) : trimSpace (x ++ [c]) = trimSpace x := by
  by_cases hd : x.dropWhile isUniSpace = []
  · have hall : ∀ a ∈ x, isUniSpace a = true := by
      simpa [List.dropWhile_eq_nil_iff] using hd
    have h1 : (x ++ [c]).dropWhile isUniSpace = [] := by
      rw [dropWhile_append_all hall]
      simp [List.dropWhile_cons, hc]
    simp [trimSpace, hd, h1]
  · have h1 : (x ++ [c]).dropWhile isUniSpace = x.dropWhile isUniSpace ++ [c] :=
      dropWhile_append_left [c] hd
    simp only [trimSpace, h1, List.reverse_append, List.reverse_cons,
      List.reverse_nil, List.nil_append, List.singleton_append,
      List.dropWhile_cons, hc, if_pos]

theorem trimSpace_eq_self {l : List Char}
    (h1 : ∀ c ∈ l.take 1, isUniSpace c = false)
    (h2 : ∀ c ∈ l.reverse.take 1, isUniSpace c = false) :
    trimSpace l = l := by
  rw [trimSpace, dropWhile_eq_self_of_take1 h1, dropWhile_eq_self_of_take1 h2,
    List.reverse_reverse]

/-- Claim C10: the pipeline splits only on the newline character: a
line break never happens at a carriage return; a CR adjacent to an LF
is invisible in the output because per-line trimming removes it; and a
lone CR surrounded by non-whitespace is no separator: such input stays
one single line, classified whole with the CR still inside it. -/
theorem C10_split_only_on_newline (x y : List Char) (hx : '\n' ∉ x) :
    splitLines (x ++ '\n' :: y) = x :: splitLines y ∧
    splitLines x = [x] ∧
    parseLines (x ++ '\r' :: '\n' :: y) = parseLines (x ++ '\n' :: y) ∧
    (('\n' ∉ y ∧ (∀ c ∈ (x ++ '\r' :: y).take 1, isUniSpace c = false) ∧
        (∀ c ∈ (x ++ '\r' :: y).reverse.take 1, isUniSpace c = false)) →
      parseLines (x ++ '\r' :: y) = [classifyLine (x ++ '\r' :: y)] ∧
      '\r' ∈ x ++ '\r' :: y) := by
  refine ⟨splitLines_append_newline x y hx, splitLines_no_newline x hx, ?_, ?_⟩
  · have hx2 : '\n' ∉ x ++ ['\r'] := by
      intro h
      rcases List.mem_append.1 h with h | h
      · exact hx h
      · simp at h
    have e1 : x ++ '\r' :: '\n' :: y = (x ++ ['\r']) ++ '\n' :: y := by
      simp
    rw [parseLines, parseLines, e1, splitLines_append_newline _ y hx2,
      splitLines_append_newline x y hx, List.filterMap_cons, List.filterMap_cons]
    have hproc : processLine (x ++ ['\r']) = processLine x := by
      simp only [processLine, trimSpace_append_space x '\r' (by decide)]
    rw [hproc]
  · rintro ⟨hy, h1, h2⟩
    have hline : '\n' ∉ x ++ '\r' :: y := by
      intro h
      rcases List.mem_append.1 h with h | h
      · exact hx h
      · rcases List.mem_cons.1 h with h | h
        · exact absurd h.symm (by decide)
        · exact hy h
    have htrim : trimSpace (x ++ '\r' :: y) = x ++ '\r' :: y :=
      trimSpace_eq_self h1 h2
    have hne : x ++ '\r' :: y ≠ [] := by
      intro h
      have := congrArg List.length h
      simp at this
    constructor
    · rw [parseLines, splitLines_no_newline _ hline, List.filterMap_cons]
      simp [processLine, htrim, hne]
    · simp

/-- Witness for C10: `"a\nb"` splits into two lines, `"a\r\nb"`
classifies like `"a\nb"`, and `"a\rb"` stays one single entry with the
carriage return inside it. -/
theorem C10_split_only_on_newline_witness :
    splitLines ("a".data ++ '\n' :: "b".data) = ["a".data, "b".data] ∧
    parseLines ("a".data ++ '\r' :: '\n' :: "b".data) =
      parseLines ("a".data ++ '\n' :: "b".data) ∧
    parseLines ("a".data ++ '\r' :: "b".data) =
      [classifyLine ("a".data ++ '\r' :: "b".data)] ∧
    '\r' ∈ "a".data ++ '\r' :: "b".data := by
  have hA := C10_split_only_on_newline "a".data "b".data (by decide)
  have hB := C10_split_only_on_newline "b".data [] (by decide)
  have hlast := hA.2.2.2 ⟨by decide, by decide, by decide⟩
  exact ⟨by rw [hA.1, hB.2.1], hA.2.2.1, hlast.1, hlast.2⟩

/-- Any entry whose `level` field is empty serializes without a `level`
key, whatever its other fields hold. -/
theorem level_key_absent (e : LogEntry) (he : e.level = []) :
    ¬ "level".data ∈ (entryFields e).map Prod.fst := by
  rcases e with ⟨ts, lv, ms, rr⟩
  simp only at he
  subst he
  simp only [entryFields, if_pos rfl]
  split_ifs <;> simp

/-- Claim C9: because every `LogEntry` field carries `omitempty`, an
empty captured field is left out of the serialized object entirely: a
structured line `[T] [] M` (empty bracketed level) serializes with only
the keys `timestamp` and `message` and no `level` key; in general any
entry with an empty `level` has no `level` key in its object. -/
theorem C9_omitempty_drops_empty_level (t m : List Char) (ht : t ≠ [])
    (ht2 : ∀ x ∈ t, x ≠ ']' ∧ x ≠ '\n') (hm0 : m ≠ [])
    (hm : ∀ c ∈ m, c ≠ '\n') (hm1 : ∀ c ∈ m.take 1, isGoSpace c = false) :
    entryFields (classifyLine ('[' :: (t ++ ']' :: ' ' :: '[' :: ']' :: ' ' :: m)))
      = [("timestamp".data, t), ("message".data, m)] ∧
    ¬ "level".data ∈
      (entryFields
        (classifyLine ('[' :: (t ++ ']' :: ' ' :: '[' :: ']' :: ' ' :: m)))).map
        Prod.fst ∧
    (∀ e : LogEntry, e.level = [] →
      ¬ "level".data ∈ (entryFields e).map Prod.fst) := by
  have hmatch := @logRegexMatch_structured t [] [' '] [' '] m ht2
    (by simp) (by simp) (by decide) (by simp) (by decide) hm hm1
  have hline : '[' :: (t ++ ']' :: ([' '] ++ '[' :: (([] : List Char) ++ ']' ::
      ([' '] ++ m)))) = '[' :: (t ++ ']' :: ' ' :: '[' :: ']' :: ' ' :: m) := by
    simp
  rw [hline] at hmatch
  have hclass :
      classifyLine ('[' :: (t ++ ']' :: ' ' :: '[' :: ']' :: ' ' :: m)) =
        { timestamp := t, level := [], message := m, raw := [] } := by
    unfold classifyLine
    rw [hmatch]
  rw [hclass]
  refine ⟨by simp [entryFields, ht, hm0], ?_, fun e he => level_key_absent e he⟩
  exact level_key_absent _ rfl

/-- Witness for C9 at the line `[T] [] M`. -/
theorem C9_omitempty_drops_empty_level_witness :
    entryFields (classifyLine
        ('[' :: ("T".data ++ ']' :: ' ' :: '[' :: ']' :: ' ' :: "M".data)))
      = [("timestamp".data, "T".data), ("message".data, "M".data)] ∧
    ¬ "level".data ∈
      (entryFields (classifyLine
        ('[' :: ("T".data ++ ']' :: ' ' :: '[' :: ']' :: ' ' :: "M".data)))).map
        Prod.fst :=
  have h := C9_omitempty_drops_empty_level "T".data "M".data (by decide)
    (by decide) (by decide) (by decide) (by decide)
  ⟨h.1, h.2.1⟩

/-- Claim C7, counterexample: on the success path for body `[a] [] b`
the single produced entry is structured (its raw field is empty), yet
its serialized object does not carry the key `level` — the keys are
exactly `timestamp` and `message` — so a structured entry does not
always carry the keys `timestamp`, `level`, `message`. -/
theorem C7_structured_keys_counterexample :
    (parseHandler true 0
        { method := "POST".data, remoteAddr := "h".data,
          body := Except.ok "[a] [] b".data }).1.status = 200 ∧
    parseLines "[a] [] b".data =
      [{ timestamp := "a".data, level := [], message := "b".data, raw := [] }] ∧
    (entryFields
        { timestamp := "a".data, level := ([] : List Char),
          message := "b".data, raw := ([] : List Char) }).map Prod.fst =
      ["timestamp".data, "message".data] ∧
    ¬ "level".data ∈ ["timestamp".data, "message".data] :=
  ⟨rfl, by decide, by decide, by decide⟩

/-- Claim C7 as amended: the success response carries status 200, the
two headers, and the marshalled entry array as body; the audit record
stores those response bytes (and the request body) verbatim; each raw
entry object carries only the key `raw`, and each structured entry
object carries exactly those of the keys `timestamp`, `level`,
`message` whose captured value is non-empty (empty captures are omitted
by `omitempty`). -/
theorem C7_success_response (dbOk : Bool) (now : Nat) (addr body : List Char)
    (resp : HttpResponse) (recs : List LogRecord)
    (h : parseHandler dbOk now
        { method := "POST".data, remoteAddr := addr, body := Except.ok body } =
      (resp, recs)) :
    resp.status = 200 ∧
    resp.headers = [("Content-Type".data, "application/json".data),
                    ("Access-Control-Allow-Origin".data, "*".data)] ∧
    resp.body = marshalEntries (parseLines body) ∧
    recs.map LogRecord.responseBody = [resp.body] ∧
    recs.map LogRecord.requestBody = [body] ∧
    recs.map LogRecord.statusCode = [200] ∧
    recs.map LogRecord.errorMsg = [[]] ∧
    ∀ e ∈ parseLines body,
      (e.raw ≠ [] → entryFields e = [("raw".data, e.raw)]) ∧
      (e.raw = [] → (entryFields e).map Prod.fst =
        (if e.timestamp = [] then [] else ["timestamp".data]) ++
        (if e.level = [] then [] else ["level".data]) ++
        (if e.message = [] then [] else ["message".data])) := by
  have hval : parseHandler dbOk now
      { method := "POST".data, remoteAddr := addr, body := Except.ok body } =
    ({ status := 200,
       headers := [("Content-Type".data, "application/json".data),
                   ("Access-Control-Allow-Origin".data, "*".data)],
       body := marshalEntries (parseLines body) },
     [{ timestamp := now, remoteAddr := addr, requestBody := body,
        responseBody := marshalEntries (parseLines body), statusCode := 200,
        errorMsg := [] }]) := by
    cases dbOk <;> rfl
  rw [hval] at h
  injection h with h1 h2
  subst h1
  subst h2
  refine ⟨rfl, rfl, rfl, by simp, by simp, by simp, by simp, ?_⟩
  intro e he
  obtain ⟨l, hmem, hl⟩ := List.mem_filterMap.1 he
  by_cases hz : trimSpace l = []
  · simp [processLine, hz] at hl
  · simp only [processLine, if_neg hz] at hl
    obtain rfl : classifyLine (trimSpace l) = e := Option.some.inj hl
    cases hmt : logRegexMatch (trimSpace l) with
    | none =>
        constructor
        · intro _
          simp [classifyLine, hmt, entryFields, hz]
        · intro hr
          simp [classifyLine, hmt] at hr
          exact absurd hr hz
    | some v =>
        obtain ⟨a, b, mm⟩ := v
        constructor
        · intro hr
          simp [classifyLine, hmt] at hr
        · intro _
          simp only [classifyLine, hmt, entryFields]
          split_ifs <;> simp

/-- Witness for C7 at the body `plain`: one raw entry, whose object
carries only the `raw` key, and the recorded response bytes equal the
marshalled array. -/
theorem C7_success_response_witness :
    "[\x7b\"raw\":\"plain\"\x7d]".data = marshalEntries (parseLines "plain".data) ∧
    entryFields
        { timestamp := ([] : List Char), level := ([] : List Char),
          message := ([] : List Char), raw := "plain".data } =
      [("raw".data, "plain".data)] :=
  have h := C7_success_response true 0 "h".data "plain".data
    { status := 200,
      headers := [("Content-Type".data, "application/json".data),
                  ("Access-Control-Allow-Origin".data, "*".data)],
      body := "[\x7b\"raw\":\"plain\"\x7d]".data }
    [{ timestamp := 0, remoteAddr := "h".data, requestBody := "plain".data,
       responseBody := "[\x7b\"raw\":\"plain\"\x7d]".data, statusCode := 200,
       errorMsg := [] }] (by decide)
  ⟨h.2.2.1,
   (h.2.2.2.2.2.2.2
      { timestamp := [], level := [], message := [], raw := "plain".data }
      (by decide)).1 (by decide)⟩

end DeLogger
